import Mathlib

/-!
Shallow embedding of the SWIFT storage protocol implementation
(SWAN-community/swift-go) used to settle the specification claims.

Bytes are modelled as natural numbers; well-formed streams carry values
below 256.  A writer returns the list of bytes it emits; a reader consumes
a prefix of a byte list and returns the parsed value together with the
remaining bytes, or `none` for the error cases of the Go source.  Machine
integer conversions (`byte(x)`, `uint16(x)`) are modelled with explicit
`% 256` and `% 65536`.  The Go `time.Time` instants are modelled as the
integer count of nanoseconds from the Unix epoch.
-/

namespace Swift

/-! ## Byte codec (io.go) -/

/-- Model of `readByte` (io.go): `b.Next(1)` must yield exactly one byte,
otherwise the function reports an error. -/
def readByte : List Nat → Option (Nat × List Nat)
  | [] => none
  | b :: r => some (b, r)

/-- Model of `writeByte` (io.go): emits one byte.  The Go `byte` conversion
applied at call sites reduces the value modulo 256, which is folded in
here so the writer is total on `Nat`. -/
def writeByte (i : Nat) : List Nat := [i % 256]

/-- Model of `readUint16` (io.go): `b.Next(2)` must yield exactly two
bytes, decoded little-endian (`binary.LittleEndian.Uint16`). -/
def readUint16 : List Nat → Option (Nat × List Nat)
  | b0 :: b1 :: r => some (b0 + 256 * b1, r)
  | _ => none

/-- Model of `writeUint16` (io.go): two bytes, little-endian; the Go
`uint16` conversion truncates modulo 65536, reflected by the modular
arithmetic on each emitted byte. -/
def writeUint16 (i : Nat) : List Nat := [i % 256, i / 256 % 256]

/-- Model of `readString` (io.go): `ReadBytes(0)` reads up to and
including the first zero byte; the terminator is removed.  A stream with
no zero byte is an error. -/
def readString : List Nat → Option (List Nat × List Nat)
  | [] => none
  | c :: r =>
    if c = 0 then some ([], r)
    else
      match readString r with
      | some (v, rest) => some (c :: v, rest)
      | none => none

/-- Model of `writeString` (io.go): the raw bytes followed by a single
zero terminator. -/
def writeString (s : List Nat) : List Nat := s ++ [0]

/-- Model of `readByteArray` (io.go): a little-endian `uint16` length
followed by that many bytes.  `bytes.Buffer.Next` silently returns fewer
bytes when the buffer is short, which `List.take`/`List.drop` reproduce. -/
def readByteArray (s : List Nat) : Option (List Nat × List Nat) :=
  match readUint16 s with
  | some (l, r) => some (r.take l, r.drop l)
  | none => none

/-- Model of `writeByteArray` (io.go): `uint16` length prefix then the
bytes. -/
def writeByteArray (v : List Nat) : List Nat := writeUint16 v.length ++ v

/-- Big-endian byte rendering of width `w` used by the Go binary encoding
of `time.Time` (`GobEncode`). -/
def beBytes : Nat → Nat → List Nat
  | 0, _ => []
  | w + 1, v => v / 256 ^ w % 256 :: beBytes w v

/-- Big-endian value of a byte list, inverse of `beBytes`. -/
def beVal (l : List Nat) : Nat := l.foldl (fun a b => a * 256 + b) 0

/-- Nanoseconds in one day. -/
def dayNanos : Int := 86400000000000

/-- Model of `ioDateBase` (io.go): 2020-01-01 UTC, as nanoseconds from the
Unix epoch. -/
def ioDateBase : Int := 1577836800000000000

/-- Model of the Go binary encoding of a `time.Time` instant
(`time.Time.GobEncode`, version 1 layout): a version byte 1, the seconds
as a big-endian 8-byte two-complement integer, the nanosecond part as a
big-endian 4-byte integer, and the fixed UTC zone marker bytes 255, 255
(minute offset -1).  The seconds are taken relative to the model epoch;
the constant epoch shift of the Go internal representation is immaterial
to round trips. -/
def gobTimeEnc (t : Int) : List Nat :=
  let nsec : Nat := (t % 1000000000).toNat
  let sec : Int := t / 1000000000
  1 :: beBytes 8 ((sec % 18446744073709551616).toNat) ++ beBytes 4 nsec ++ [255, 255]

/-- Model of the Go binary decoding of a `time.Time` instant
(`time.Time.GobDecode`): on the version-1 15-byte layout it restores the
instant; on any malformed input Go reports an error, which `readTime`
(io.go) ignores, leaving the zero instant - modelled by returning 0. -/
def gobTimeDec (l : List Nat) : Int :=
  if l.head? = some 1 ∧ l.tail.length = 14 then
    let rest := l.tail
    let secU : Nat := beVal (rest.take 8)
    let nsec : Nat := beVal ((rest.drop 8).take 4)
    let sec : Int :=
      if secU < 9223372036854775808 then (secU : Int)
      else (secU : Int) - 18446744073709551616
    sec * 1000000000 + nsec
  else 0

/-- Model of `readTime` (io.go): reads a length-prefixed byte array and
decodes it with `GobDecode`, whose error is discarded by the source. -/
def readTime (s : List Nat) : Option (Int × List Nat) :=
  match readByteArray s with
  | some (d, r) => some (gobTimeDec d, r)
  | none => none

/-- Model of `writeTime` (io.go): the `GobEncode` bytes wrapped in a
length-prefixed byte array. -/
def writeTime (t : Int) : List Nat := writeByteArray (gobTimeEnc t)

/-- Model of `readDate` (io.go): two single-byte reads, combined as
`int(h) shifted left by 8, or int(l)` - the HIGH byte first - and added to
`ioDateBase` as a count of days. -/
def readDate (s : List Nat) : Option (Int × List Nat) :=
  match readByte s with
  | none => none
  | some (h, r1) =>
    match readByte r1 with
    | none => none
    | some (l, r2) => some (ioDateBase + ((h : Int) * 256 + (l : Int)) * dayNanos, r2)

/-- Model of `writeDate` (io.go): the day count `i` of the instant from
`ioDateBase` (the source computes it through an exact float expression,
`int(t.Sub(ioDateBase).Hours() / 24)`; on the day-granular in-range domain
of the data model both computations agree), then the bytes `byte(i >> 8)`
followed by `byte(i & 0xFF)` - the HIGH byte is written first. -/
def writeDate (t : Int) : List Nat :=
  let i : Int := (t - ioDateBase) / dayNanos
  writeByte ((i / 256 % 256).toNat) ++ writeByte ((i % 256).toNat)

/-! ## Pair (pair.go) -/

/-- The conflict flag sentinel for zero-initialised records (pair.go). -/
def conflictInvalid : Nat := 0

/-- The oldest-wins conflict policy value (pair.go). -/
def conflictOldest : Nat := 1

/-- The newest-wins conflict policy value (pair.go). -/
def conflictNewest : Nat := 2

/-- The add-merge conflict policy value (pair.go). -/
def conflictAdd : Nat := 3

/-- Model of the `pair` struct (pair.go): key and value as byte strings,
times as nanosecond instants, the conflict flag byte, and the transient
`cookieWriteTime`. -/
structure pair where
  key : List Nat
  created : Int
  expires : Int
  value : List Nat
  conflict : Nat
  cookieWriteTime : Int
deriving DecidableEq, Repr

/-- Model of `pair.writeToBuffer` (pair.go): key, conflict byte, created
time, expires date, value - in that order. -/
def pair.writeToBuffer (p : pair) : List Nat :=
  writeString p.key ++ writeByte p.conflict ++ writeTime p.created ++
    writeDate p.expires ++ writeString p.value

/-- Model of `pair.setFromBuffer` (pair.go): reads key, conflict, created,
expires and value into a fresh pair (`var p pair` zero-initialises the
receiver, so `cookieWriteTime` is the zero instant). -/
def pair.setFromBuffer (s : List Nat) : Option (pair × List Nat) :=
  match readString s with
  | none => none
  | some (k, s1) =>
    match readByte s1 with
    | none => none
    | some (cf, s2) =>
      match readTime s2 with
      | none => none
      | some (cr, s3) =>
        match readDate s3 with
        | none => none
        | some (ex, s4) =>
          match readString s4 with
          | none => none
          | some (v, s5) =>
            some ({ key := k, created := cr, expires := ex, value := v,
                    conflict := cf, cookieWriteTime := 0 }, s5)

/-- Model of `resolveConflictNewest` (pair.go): the later `created` wins;
on a tie the later `cookieWriteTime` wins, the cookie pair `c` being the
default (`time.After` is the strict order). -/
def resolveConflictNewest (o c : pair) : pair :=
  if c.created < o.created then o
  else if o.created < c.created then c
  else if c.cookieWriteTime < o.cookieWriteTime then o
  else c

/-- Model of `resolveConflictOldest` (pair.go): the earlier `created`
wins; on a tie the later `cookieWriteTime` wins, `c` being the default. -/
def resolveConflictOldest (o c : pair) : pair :=
  if o.created < c.created then o
  else if c.created < o.created then c
  else if c.cookieWriteTime < o.cookieWriteTime then o
  else c

/-- The Go string separator for value lists (pair.go `pairListSeparator`)
is CR LF; this splits a byte string around each non-overlapping
occurrence, as `strings.Split` does (an empty string yields one empty
element). -/
def splitCRLF : List Nat → List (List Nat)
  | [] => [[]]
  | [c] => [[c]]
  | c :: d :: rest =>
    if c = 13 ∧ d = 10 then [] :: splitCRLF rest
    else
      match splitCRLF (d :: rest) with
      | h :: t => (c :: h) :: t
      | [] => [[c]]

/-- Joins a value list with the CR LF separator, as `strings.Join`. -/
def joinCRLF (xs : List (List Nat)) : List Nat := List.intercalate [13, 10] xs

/-- Byte-level white space as trimmed by `strings.TrimSpace` on ASCII
data: tab, line feed, vertical tab, form feed, carriage return, space. -/
def isSpaceByte (b : Nat) : Bool :=
  b = 9 || b = 10 || b = 11 || b = 12 || b = 13 || b = 32

/-- Model of `strings.TrimSpace` on the ASCII domain: drop white space
bytes from both ends. -/
def trimSpace (l : List Nat) : List Nat :=
  ((l.dropWhile isSpaceByte).reverse.dropWhile isSpaceByte).reverse

/-- The loop body of `mergeValues` (pair.go): walk the cookie elements,
appending each one that is absent from the accumulated list (which starts
as the operation list and grows as elements are appended). -/
def mergeValuesList (v : List (List Nat)) (cs : List (List Nat)) : List (List Nat) :=
  cs.foldl (fun acc a => if a ∈ acc then acc else acc ++ [a]) v

/-- Model of `mergeValues` (pair.go): split both values on CR LF, append
the cookie elements missing from the operation list, join with CR LF and
trim surrounding white space. -/
def mergeValues (o c : pair) : List Nat :=
  trimSpace (joinCRLF (mergeValuesList (splitCRLF o.value) (splitCRLF c.value)))

/-- Model of `mergePairs` (pair.go): when the value strings differ, a
fresh pair (`var n pair`, so `cookieWriteTime` is zero) with conflict
`add`, `created` the current instant, `expires` the later of the two, the
operation key and the merged value; otherwise the cookie pair itself. -/
def mergePairs (now : Int) (o c : pair) : pair :=
  if o.value ≠ c.value then
    { key := o.key, created := now,
      expires := if c.expires < o.expires then o.expires else c.expires,
      value := mergeValues o c, conflict := conflictAdd, cookieWriteTime := 0 }
  else c

/-- The zero pair returned by `resolveConflict` when both sides are
absent (`emptyValue`, pair.go). -/
def emptyValue : pair :=
  { key := [], created := 0, expires := 0, value := [], conflict := 0,
    cookieWriteTime := 0 }

/-- Model of `resolveConflict` (pair.go): absent sides fall through to
the present one; otherwise the conflict flag of the operation pair picks
the policy, the invalid flag being an error. -/
def resolveConflict (now : Int) (o c : Option pair) : Except String pair :=
  match o, c with
  | none, none => .ok emptyValue
  | some o, none => .ok o
  | none, some c => .ok c
  | some o, some c =>
    if o.conflict = conflictInvalid then .error "Conflict flag is not initialized"
    else if o.conflict = conflictNewest then .ok (resolveConflictNewest o c)
    else if o.conflict = conflictOldest then .ok (resolveConflictOldest o c)
    else if o.conflict = conflictAdd then .ok (mergePairs now o c)
    else .ok o

/-- Clean recursive formulation of the distinct append performed by
`mergeValues`, used to state what the loop computes. -/
def distinctAppend (v : List (List Nat)) : List (List Nat) → List (List Nat)
  | [] => v
  | a :: as => if a ∈ v then distinctAppend v as else distinctAppend (v ++ [a]) as

/-- Definition following the specification words for the add policy: the
distinct union of the two value lists, first occurrences kept, the
elements of the first list first.  Stated for comparison with the source
behaviour. -/
def distinctUnionSpec (as bs : List (List Nat)) : List (List Nat) :=
  (as ++ bs).foldl (fun acc x => if x ∈ acc then acc else acc ++ [x]) []

/-! ## Secrets (node.go) -/

/-- Model of the `secret` struct (secret source file): the creation time
stamp and the key material; the cipher is immaterial to ordering. -/
structure secret where
  timeStamp : Int
  key : List Nat
deriving DecidableEq, Repr

/-- Ordered insertion used to model the Go sort. -/
def insertByTimeStamp (s : secret) : List secret → List secret
  | [] => [s]
  | t :: ts =>
    if s.timeStamp ≤ t.timeStamp then s :: t :: ts else t :: insertByTimeStamp s ts

/-- Model of `node.sortSecrets` (node.go): `sort.Slice` with the
comparator `secrets[i].timeStamp.Sub(secrets[j].timeStamp) < 0`, which
orders the slice by ASCENDING time stamp.  Insertion sort produces the
ascending order the comparator specifies; the Go sort is unstable and
agrees with this model on distinct time stamps. -/
def sortSecrets (l : List secret) : List secret := l.foldr insertByTimeStamp []

/-- Model of `node.getSecret` (node.go): the first element of the secrets
slice, or an error when there are none. -/
def getSecret : List secret → Option secret
  | [] => none
  | s :: _ => some s

/-! ## HTML and operation wire format (html.go, operation source file)

The state separator for the operation is the single CR character
(`resultSeparator`). -/

/-- Model of the `HTML` struct written to the operation payload: the five
user-interface strings and the flags byte carrying the four protocol bit
flags - displayUserInterface, postMessageOnComplete, useHomeNode,
javaScript (html.go). -/
structure HTML where
  title : List Nat
  message : List Nat
  backgroundColor : List Nat
  messageColor : List Nat
  progressColor : List Nat
  flags : Nat
deriving DecidableEq, Repr

/-- Model of `HTML.write` (html.go): the five strings in declaration
order, then the flags byte. -/
def HTML.write (h : HTML) : List Nat :=
  writeString h.title ++ writeString h.message ++ writeString h.backgroundColor ++
    writeString h.messageColor ++ writeString h.progressColor ++
    writeByte h.flags

/-- Model of `HTML.set` (html.go): reads the five strings and the flags
byte back. -/
def HTML.set (s : List Nat) : Option (HTML × List Nat) :=
  match readString s with
  | none => none
  | some (t, s1) =>
    match readString s1 with
    | none => none
    | some (m, s2) =>
      match readString s2 with
      | none => none
      | some (bg, s3) =>
        match readString s3 with
        | none => none
        | some (mc, s4) =>
          match readString s4 with
          | none => none
          | some (pc, s5) =>
            match readByte s5 with
            | none => none
            | some (fl, s6) =>
              some ({ title := t, message := m, backgroundColor := bg,
                      messageColor := mc, progressColor := pc,
                      flags := fl }, s6)

/-- Model of the persisted fields of the `operation` struct (operation
source file), together with the per-request `resolved` list that
`asByteArray` serialises in place of `pairs`. -/
structure operation where
  timeStamp : Int
  returnURL : List Nat
  accessNode : List Nat
  html : HTML
  nodesVisited : Nat
  nodeCount : Nat
  prevNode : List Nat
  homeNode : List Nat
  state : List (List Nat)
  pairs : List pair
  resolved : List pair
deriving DecidableEq, Repr

/-- The `resultSeparator` constant is the single CR character; this splits
a byte string on it with the `strings.Split` semantics (an empty string
yields one empty element). -/
def splitCR : List Nat → List (List Nat)
  | [] => [[]]
  | c :: rest =>
    if c = 13 then [] :: splitCR rest
    else
      match splitCR rest with
      | h :: t => (c :: h) :: t
      | [] => [[c]]

/-- Joins the state elements with the CR separator, as `strings.Join`. -/
def joinCR : List (List Nat) → List Nat
  | [] => []
  | [x] => x
  | x :: y :: rest => x ++ 13 :: joinCR (y :: rest)

/-- Serialisation of a pair list, as the loop in `asByteArray`. -/
def writePairs (ps : List pair) : List Nat := (ps.map pair.writeToBuffer).flatten

/-- The pair-reading loop of `setFromByteArray`: reads the announced
count of pairs. -/
def readPairs : Nat → List Nat → Option (List pair × List Nat)
  | 0, s => some ([], s)
  | n + 1, s =>
    match pair.setFromBuffer s with
    | none => none
    | some (p, r) =>
      match readPairs n r with
      | none => none
      | some (ps, r2) => some (p :: ps, r2)

/-- Model of `operation.asByteArray` (operation source file): time stamp,
return URL, access node, the HTML block, the two hop-count bytes, the
previous and home node domains, the state list joined with CR, then the
count of RESOLVED pairs followed by their serialisations. -/
def operation.asByteArray (o : operation) : List Nat :=
  writeTime o.timeStamp ++ writeString o.returnURL ++ writeString o.accessNode ++
    HTML.write o.html ++ writeByte o.nodesVisited ++ writeByte o.nodeCount ++
    writeString o.prevNode ++ writeString o.homeNode ++
    writeString (joinCR o.state) ++ writeByte o.resolved.length ++
    writePairs o.resolved

/-- Model of `operation.setFromByteArray` (operation source file) applied
to a fresh operation, as `newOperationFromByteArray` does: the fields are
read in the order they were written, the pair list is appended to the
empty `pairs` field, and any remaining bytes after the final pair are an
error. -/
def operation.setFromByteArray (d : List Nat) : Option operation :=
  match readTime d with
  | none => none
  | some (ts, s1) =>
    match readString s1 with
    | none => none
    | some (ru, s2) =>
      match readString s2 with
      | none => none
      | some (an, s3) =>
        match HTML.set s3 with
        | none => none
        | some (h, s4) =>
          match readByte s4 with
          | none => none
          | some (nv, s5) =>
            match readByte s5 with
            | none => none
            | some (nc, s6) =>
              match readString s6 with
              | none => none
              | some (pv, s7) =>
                match readString s7 with
                | none => none
                | some (hn, s8) =>
                  match readString s8 with
                  | none => none
                  | some (st, s9) =>
                    match readByte s9 with
                    | none => none
                    | some (c, s10) =>
                      match readPairs c s10 with
                      | none => none
                      | some (ps, s11) =>
                        if s11 = [] then
                          some { timeStamp := ts, returnURL := ru, accessNode := an,
                                 html := h, nodesVisited := nv, nodeCount := nc,
                                 prevNode := pv, homeNode := hn,
                                 state := splitCR st, pairs := ps, resolved := [] }
                        else none

/-! ## Crypto (crypto.go, node.go) -/

/-- Modelled from the spec: the Go standard library AES-GCM AEAD used by
crypto.go (`cipher.AEAD` from crypto/cipher is outside this repository).
Section 4.2 of the specification: `Seal` appends ciphertext and tag for a
given nonce, `Open` inverts it and fails on any tampering; the standard
nonce size is 12.  `sealRaw` is the ciphertext-and-tag part only (the Go
calls prepend the nonce via the destination argument), `openRaw` the
inverse, and the AEAD laws are carried as proof fields. -/
structure AEAD where
  nonceSize : Nat
  sealRaw : List Nat → List Nat → List Nat
  openRaw : List Nat → List Nat → Option (List Nat)
  open_seal : ∀ n p, openRaw n (sealRaw n p) = some p
  seal_bytes : ∀ n p, (∀ b ∈ p, b < 256) → ∀ b ∈ sealRaw n p, b < 256

/-- Model of `crypto.encryptWithNonce` (crypto.go): `gcm.Seal(n, n, b,
nil)` returns the nonce followed by ciphertext and tag. -/
def encryptWithNonce (g : AEAD) (b n : List Nat) : List Nat :=
  n ++ g.sealRaw n b

/-- Model of `crypto.decrypt` (crypto.go): inputs shorter than the nonce
size are rejected before any slicing; otherwise the nonce prefix and the
body are split and opened. -/
def decrypt (g : AEAD) (b : List Nat) : Except String (List Nat) :=
  if b.length < g.nonceSize then
    .error "data length shorter than nonce"
  else
    match g.openRaw (b.take g.nonceSize) (b.drop g.nonceSize) with
    | some d => .ok d
    | none => .error "CryptoError"

/-! ## Base64 URL alphabet without padding (encoding/base64 RawURLEncoding,
used by node.scramble and node.unscramble) -/

/-- The URL-safe base64 alphabet: the ASCII code of the character for a
six-bit value. -/
def b64Char (k : Nat) : Nat :=
  if k < 26 then 65 + k
  else if k < 52 then 97 + (k - 26)
  else if k < 62 then 48 + (k - 52)
  else if k = 62 then 45
  else 95

/-- Inverse of the URL-safe base64 alphabet; `none` for bytes outside the
alphabet. -/
def b64CharDec (c : Nat) : Option Nat :=
  if 65 ≤ c ∧ c ≤ 90 then some (c - 65)
  else if 97 ≤ c ∧ c ≤ 122 then some (26 + (c - 97))
  else if 48 ≤ c ∧ c ≤ 57 then some (52 + (c - 48))
  else if c = 45 then some 62
  else if c = 95 then some 63
  else none

/-- Base64 encoding without padding over byte lists
(`base64.RawURLEncoding.EncodeToString`): three bytes become four
characters; a final group of one or two bytes becomes two or three
characters with zero trailing bits. -/
def b64encode : List Nat → List Nat
  | b1 :: b2 :: b3 :: rest =>
    b64Char (b1 / 4) :: b64Char (b1 % 4 * 16 + b2 / 16) ::
      b64Char (b2 % 16 * 4 + b3 / 64) :: b64Char (b3 % 64) :: b64encode rest
  | [b1, b2] =>
    [b64Char (b1 / 4), b64Char (b1 % 4 * 16 + b2 / 16), b64Char (b2 % 16 * 4)]
  | [b1] => [b64Char (b1 / 4), b64Char (b1 % 4 * 16)]
  | [] => []

/-- Base64 decoding without padding
(`base64.RawURLEncoding.DecodeString`): groups of four characters yield
three bytes, a final group of three or two characters yields two bytes or
one, a final single character is an error, as is any byte outside the
alphabet. -/
def b64decode : List Nat → Option (List Nat)
  | c1 :: c2 :: c3 :: c4 :: rest =>
    match b64CharDec c1, b64CharDec c2, b64CharDec c3, b64CharDec c4 with
    | some s1, some s2, some s3, some s4 =>
      match b64decode rest with
      | some bs =>
        some ((s1 * 4 + s2 / 16) :: (s2 % 16 * 16 + s3 / 4) :: (s3 % 4 * 64 + s4) :: bs)
      | none => none
    | _, _, _, _ => none
  | [c1, c2, c3] =>
    match b64CharDec c1, b64CharDec c2, b64CharDec c3 with
    | some s1, some s2, some s3 =>
      some [s1 * 4 + s2 / 16, s2 % 16 * 16 + s3 / 4]
    | _, _, _ => none
  | [c1, c2] =>
    match b64CharDec c1, b64CharDec c2 with
    | some s1, some s2 => some [s1 * 4 + s2 / 16]
    | _, _ => none
  | [_] => none
  | [] => some []

/-! ## Node scrambling and decryption (node.go) -/

/-- Model of `makeNonce` (node.go): a nonce of the cipher nonce size
whose bytes cycle through the domain bytes. -/
def makeNonce (g : AEAD) (d : List Nat) : List Nat :=
  (List.range g.nonceSize).map (fun i => d.getD (i % d.length) 0)

/-- Model of the node fields involved in scrambling (node.go): the domain
bytes, the scrambler cipher, and the fixed nonce computed by `newNode`
via `makeNonce`. -/
structure scrNode where
  domain : List Nat
  scrambler : AEAD
  nonce : List Nat

/-- Model of `newNode` restricted to the scrambling fields: the fixed
nonce is derived from the scrambler and the domain. -/
def newScrNode (g : AEAD) (d : List Nat) : scrNode :=
  { domain := d, scrambler := g, nonce := makeNonce g d }

/-- Model of `node.scramble` (node.go): base64 URL encoding without
padding of the fixed-nonce encryption of the input. -/
def scramble (n : scrNode) (s : List Nat) : List Nat :=
  b64encode (encryptWithNonce n.scrambler s n.nonce)

/-- Model of `node.unscramble` (node.go): base64 URL decoding without
padding, then `crypto.decrypt` with the scrambler cipher. -/
def unscramble (n : scrNode) (s : List Nat) : Except String (List Nat) :=
  match b64decode s with
  | none => .error "base64 decode error"
  | some b => decrypt n.scrambler b

/-- The first-success loop inside `node.Decrypt` (node.go): each secret
decrypt-and-decompress function is tried in slice order.  The per-secret
`crypto.decryptAndDecompress` combines AES-GCM and zlib from the Go
standard library and is abstracted as a function argument. -/
def decryptLoop : List (List Nat → Option (List Nat)) → List Nat → Option (List Nat)
  | [], _ => none
  | f :: fs, d =>
    match f d with
    | some b => some b
    | none => decryptLoop fs d

/-- Model of `node.Decrypt` (node.go).  The source declares `var err
error`, but the loop assigns `b, err := ...` with a short declaration
that SHADOWS the outer `err`; the final `return nil, err` therefore
always returns the nil outer error.  The second component is the returned
Go error value. -/
def nodeDecrypt (fns : List (List Nat → Option (List Nat))) (d : List Nat) :
    Option (List Nat) × Option String :=
  match decryptLoop fns d with
  | some b => (some b, none)
  | none => (none, none)

/-! ## Ring and home node lookup (nodes.go) -/

/-- Model of a ring entry: a node carrying the hash that places it on the
ring (nodes.go `hash` slice). -/
structure ringNode where
  hash : Nat
  domain : List Nat
deriving DecidableEq, Repr

/-- One step relation of the client-IP regular expression
`[\d\.]+|\[[^\]]+\]` at the head of the input: the first alternative is a
maximal run of ASCII digits and dots, the second a bracketed run.  Go
regexp semantics prefer the leftmost match and the first alternative. -/
def isDigitDot (c : Nat) : Bool := (48 ≤ c && c ≤ 57) || c = 46

/-- Attempts the IP-token regular expression at the start of the list:
a non-empty maximal digits-and-dots run, or an opening bracket, a
non-empty run of non-bracket bytes and a closing bracket. -/
def matchIPAt (s : List Nat) : Option (List Nat) :=
  match s with
  | [] => none
  | c :: _ =>
    if isDigitDot c then some (s.takeWhile isDigitDot)
    else if c = 91 then
      let inner := (s.drop 1).takeWhile (fun b => b ≠ 93)
      if inner.length = 0 then none
      else if (s.drop 1).drop inner.length = [] then none
      else some (91 :: inner ++ [93])
    else none

/-- Leftmost match of the IP-token regular expression
(`regexClientIP.FindString`, nodes.go): scan positions left to right and
return the first successful match; `none` when there is no match (Go then
yields the empty string). -/
def findIPToken : List Nat → Option (List Nat)
  | [] => none
  | c :: rest =>
    match matchIPAt (c :: rest) with
    | some m => some m
    | none => findIPToken rest

/-- Model of `getRemoteAddr` (nodes.go): the first IP-looking token of
the forwarded-for header when one exists, else the WHOLE header when it
is non-empty; the same fallback applies to the remote address; otherwise
the empty string. -/
def getRemoteAddr (xff ra : List Nat) : List Nat :=
  if xff ≠ [] then
    match findIPToken xff with
    | some b => b
    | none => xff
  else if ra ≠ [] then
    match findIPToken ra with
    | some b => b
    | none => ra
  else []

/-- Model of `getRemoteAddrHash` (nodes.go): hash the extracted address
when it is non-empty, else zero.  The hash function (`getHash`, 64-bit
FNV-1a re-seeded through the Go PRNG) is abstracted as a parameter. -/
def getRemoteAddrHash (hashFn : List Nat → Nat) (xff ra : List Nat) : Nat :=
  let d := getRemoteAddr xff ra
  if 0 < d.length then hashFn d else 0

/-- Model of the loop of `nodes.getNodeIndexByHash` (nodes.go): binary
search over the hash-ordered slice; `m` holds the last midpoint, 0 when
the loop never ran. -/
def searchHash (hs : List ringNode) (h : Nat) (l u m : Int) : Int :=
  if hl : l ≤ u then
    if (hs.getD ((l + u) / 2).toNat { hash := 0, domain := [] }).hash < h then
      searchHash hs h ((l + u) / 2 + 1) u ((l + u) / 2)
    else if h < (hs.getD ((l + u) / 2).toNat { hash := 0, domain := [] }).hash then
      searchHash hs h l ((l + u) / 2 - 1) ((l + u) / 2)
    else (l + u) / 2
  else m
termination_by (u + 1 - l).toNat
decreasing_by
  all_goals omega

/-- Model of `nodes.getNodeIndexByHash` (nodes.go): the search starts
with `l = 0`, `u = len - 1`, `m = 0`. -/
def getNodeIndexByHash (hs : List ringNode) (h : Nat) : Int :=
  searchHash hs h 0 ((hs.length : Int) - 1) 0

/-- Model of `nodes.getHomeNode` (nodes.go): look up the index for the
client hash; indices outside the slice bounds are the error case (the
`NoHomeNode` disposition). -/
def getHomeNode (hashFn : List Nat → Nat) (hs : List ringNode) (xff ra : List Nat) :
    Except String ringNode :=
  let i := getNodeIndexByHash hs (getRemoteAddrHash hashFn xff ra)
  if i < 0 ∨ (hs.length : Int) ≤ i then
    .error "no home node identified"
  else
    .ok (hs.getD i.toNat { hash := 0, domain := [] })

/-! ## Well-formedness predicates reflecting the data model (section 3 of
the specification) -/

/-- Well-formedness of a pair under the data model of the specification:
printable (zero-free) key and value bytes, a byte-sized conflict flag, a
representable creation instant, and a day-granular expiry inside the
16-bit day range from the date base. -/
def pairWF (p : pair) : Prop :=
  0 ∉ p.key ∧ 0 ∉ p.value ∧ p.conflict < 256 ∧
  0 ≤ p.created ∧ p.created < 9223372036854775808000000000 ∧
  ioDateBase ≤ p.expires ∧ p.expires < ioDateBase + 65536 * dayNanos ∧
  p.expires % dayNanos = 0

instance (p : pair) : Decidable (pairWF p) := by
  unfold pairWF
  infer_instance

/-- Well-formedness of an operation under the data model: a representable
time stamp, zero-free strings, byte-sized hop counters, a non-empty state
list whose elements contain neither CR nor zero bytes, and at most 255
well-formed resolved pairs. -/
def opWF (o : operation) : Prop :=
  0 ≤ o.timeStamp ∧ o.timeStamp < 9223372036854775808000000000 ∧
  0 ∉ o.returnURL ∧ 0 ∉ o.accessNode ∧
  0 ∉ o.html.title ∧ 0 ∉ o.html.message ∧ 0 ∉ o.html.backgroundColor ∧
  0 ∉ o.html.messageColor ∧ 0 ∉ o.html.progressColor ∧ o.html.flags < 256 ∧
  o.nodesVisited < 256 ∧ o.nodeCount < 256 ∧
  0 ∉ o.prevNode ∧ 0 ∉ o.homeNode ∧
  o.state ≠ [] ∧ (∀ x ∈ o.state, 13 ∉ x ∧ 0 ∉ x) ∧
  o.resolved.length < 256 ∧ (∀ p ∈ o.resolved, pairWF p)

instance (o : operation) : Decidable (opWF o) := by
  unfold opWF
  infer_instance

/-! ## Concrete instances used to evaluate the embedded functions -/

/-- A trivial instance of the AEAD interface used to evaluate theorems at
concrete inputs. -/
def trivAEAD : AEAD where
  nonceSize := 12
  sealRaw := fun _ p => p
  openRaw := fun _ c => some c
  open_seal := fun _ _ => rfl
  seal_bytes := fun _ _ h b hb => h b hb

/-- A secret created at time stamp 10 (the older one). -/
def secretOld : secret := { timeStamp := 10, key := [107, 49] }

/-- A secret created at time stamp 20 (the newer one). -/
def secretNew : secret := { timeStamp := 20, key := [107, 50] }

/-- A pair used as the operation side of conflict-resolution inputs. -/
def c5a : pair :=
  { key := [107], created := 5, expires := ioDateBase, value := [120],
    conflict := conflictNewest, cookieWriteTime := 2 }

/-- A pair for the cookie side with the same creation instant as `c5a`
but an earlier cookie write time. -/
def c5b : pair :=
  { key := [107], created := 5, expires := ioDateBase, value := [121],
    conflict := conflictNewest, cookieWriteTime := 1 }

/-- A pair whose creation instant is later than that of `c5d`. -/
def c5c : pair :=
  { key := [107], created := 7, expires := ioDateBase, value := [120],
    conflict := conflictNewest, cookieWriteTime := 0 }

/-- A pair whose creation instant is earlier than that of `c5c`. -/
def c5d : pair :=
  { key := [107], created := 3, expires := ioDateBase, value := [121],
    conflict := conflictNewest, cookieWriteTime := 0 }

/-- An operation pair with the add policy and the single value list
element "a". -/
def c6o : pair :=
  { key := [107], created := 0, expires := ioDateBase, value := [97],
    conflict := conflictAdd, cookieWriteTime := 0 }

/-- A cookie pair with the add policy and an empty value string. -/
def c6c : pair :=
  { key := [107], created := 0, expires := ioDateBase + dayNanos, value := [],
    conflict := conflictAdd, cookieWriteTime := 0 }

/-- A well-formed pair used to evaluate the pair round trip. -/
def c3p : pair :=
  { key := [107, 101, 121], created := 1577836800000000100,
    expires := 1577923200000000000, value := [104, 13, 10, 105],
    conflict := conflictNewest, cookieWriteTime := 77 }

/-- An operation with an empty state list and a non-empty pair list,
used to evaluate the operation round trip. -/
def c2op : operation :=
  { timeStamp := 0, returnURL := [114], accessNode := [97],
    html := { title := [116], message := [], backgroundColor := [],
              messageColor := [], progressColor := [], flags := 0 },
    nodesVisited := 1, nodeCount := 2, prevNode := [], homeNode := [],
    state := [], pairs := [c3p], resolved := [] }

/-- A well-formed operation used to evaluate the operation round trip. -/
def c2wfOp : operation :=
  { timeStamp := 1600000000000000000, returnURL := [114, 117],
    accessNode := [97, 110],
    html := { title := [116], message := [109], backgroundColor := [98],
              messageColor := [99], progressColor := [100], flags := 13 },
    nodesVisited := 1, nodeCount := 3, prevNode := [112], homeNode := [104],
    state := [[115, 49], [115, 50]], pairs := [],
    resolved := [c3p] }

/-- A one-node ring used to evaluate the home-node lookup. -/
def ring8 : List ringNode := [{ hash := 5, domain := [110] }]

/-! ## Codec round-trip lemmas -/

theorem readByte_writeByte (b : Nat) (hb : b < 256) (r : List Nat) :
    readByte (writeByte b ++ r) = some (b, r) := by
  simp [readByte, writeByte, Nat.mod_eq_of_lt hb]

theorem readUint16_writeUint16 (n : Nat) (hn : n < 65536) (r : List Nat) :
    readUint16 (writeUint16 n ++ r) = some (n, r) := by
  simp only [writeUint16, List.cons_append, List.nil_append, readUint16]
  congr 1
  congr 1
  omega

theorem readString_writeString (s : List Nat) (hs : 0 ∉ s) (r : List Nat) :
    readString (writeString s ++ r) = some (s, r) := by
  induction s with
  | nil => simp [writeString, readString]
  | cons c cs ih =>
    have hc : ¬ c = 0 := fun h => hs (h ▸ List.mem_cons_self c cs)
    have hcs : 0 ∉ cs := fun h => hs (List.mem_cons_of_mem c h)
    have ih2 := ih hcs
    simp only [writeString] at ih2 ⊢
    rw [List.cons_append, List.cons_append, readString, if_neg hc, ih2]

theorem readByteArray_writeByteArray (v : List Nat) (hv : v.length < 65536)
    (r : List Nat) : readByteArray (writeByteArray v ++ r) = some (v, r) := by
  simp only [readByteArray, writeByteArray, List.append_assoc,
    readUint16_writeUint16 v.length hv]
  simp [List.take_left, List.drop_left]

theorem beVal_go (l : List Nat) (a : Nat) :
    l.foldl (fun x b => x * 256 + b) a =
      a * 256 ^ l.length + l.foldl (fun x b => x * 256 + b) 0 := by
  induction l generalizing a with
  | nil => simp
  | cons b bs ih =>
    simp only [List.foldl_cons, List.length_cons, Nat.zero_mul, Nat.zero_add]
    rw [ih (a * 256 + b), ih b]
    ring

theorem beBytes_length (w v : Nat) : (beBytes w v).length = w := by
  induction w generalizing v with
  | zero => simp [beBytes]
  | succ k ih => simp [beBytes, ih]

theorem digit_split (v w : Nat) :
    v % 256 ^ (w + 1) = v / 256 ^ w % 256 * 256 ^ w + v % 256 ^ w := by
  have hp : 0 < 256 ^ w := Nat.pos_pow_of_pos w (by norm_num)
  have hm1 : v % 256 ^ w < 256 ^ w := Nat.mod_lt _ hp
  have hm2 : v / 256 ^ w % 256 < 256 := Nat.mod_lt _ (by norm_num)
  have hsub : 256 * (v / 256 ^ w / 256) + v / 256 ^ w % 256 = v / 256 ^ w :=
    Nat.div_add_mod _ _
  have hv : v = 256 ^ (w + 1) * (v / 256 ^ w / 256) +
      (v / 256 ^ w % 256 * 256 ^ w + v % 256 ^ w) := by
    calc v = 256 ^ w * (v / 256 ^ w) + v % 256 ^ w := (Nat.div_add_mod _ _).symm
      _ = 256 ^ w * (256 * (v / 256 ^ w / 256) + v / 256 ^ w % 256) + v % 256 ^ w := by
          rw [hsub]
      _ = 256 ^ (w + 1) * (v / 256 ^ w / 256) +
          (v / 256 ^ w % 256 * 256 ^ w + v % 256 ^ w) := by ring
  conv_lhs => rw [hv]
  rw [Nat.add_comm, Nat.add_mul_mod_self_left]
  apply Nat.mod_eq_of_lt
  have hstep : v / 256 ^ w % 256 * 256 ^ w + v % 256 ^ w <
      (v / 256 ^ w % 256 + 1) * 256 ^ w := by
    have : (v / 256 ^ w % 256 + 1) * 256 ^ w =
        v / 256 ^ w % 256 * 256 ^ w + 256 ^ w := by ring
    omega
  have hle : (v / 256 ^ w % 256 + 1) * 256 ^ w ≤ 256 * 256 ^ w :=
    Nat.mul_le_mul_right _ (by omega)
  have hpow : 256 ^ (w + 1) = 256 * 256 ^ w := by ring
  omega

theorem beVal_beBytes_mod (w v : Nat) : beVal (beBytes w v) = v % 256 ^ w := by
  induction w generalizing v with
  | zero => simp [beBytes, beVal, Nat.mod_one]
  | succ k ih =>
    simp only [beBytes, beVal, List.foldl_cons, Nat.zero_mul, Nat.zero_add]
    rw [beVal_go, beBytes_length]
    have := ih v
    simp only [beVal] at this
    rw [this, digit_split]

theorem beVal_beBytes (w v : Nat) (hv : v < 256 ^ w) : beVal (beBytes w v) = v := by
  rw [beVal_beBytes_mod, Nat.mod_eq_of_lt hv]

theorem gobTimeEnc_length (t : Int) : (gobTimeEnc t).length = 15 := by
  simp [gobTimeEnc, beBytes_length]

theorem gobTimeDec_gobTimeEnc (t : Int) (h0 : 0 ≤ t)
    (h1 : t < 9223372036854775808000000000) : gobTimeDec (gobTimeEnc t) = t := by
  have hmod : t / 1000000000 % 18446744073709551616 = t / 1000000000 := by omega
  have hA8 : (beBytes 8 (t / 1000000000).toNat).length = 8 := beBytes_length _ _
  have hB4 : (beBytes 4 (t % 1000000000).toNat).length = 4 := beBytes_length _ _
  simp only [gobTimeEnc, gobTimeDec, hmod, List.head?_cons, List.tail_cons]
  set A := beBytes 8 (t / 1000000000).toNat with hA
  set B := beBytes 4 (t % 1000000000).toNat with hB
  have hlen : (A ++ B ++ [255, 255]).length = 14 := by
    simp [hA8, hB4]
  rw [if_pos ⟨rfl, hlen⟩]
  rw [List.append_assoc, List.cons_append, List.tail_cons]
  rw [show List.take 8 (A ++ (B ++ [255, 255])) = A by
    rw [← hA8, List.take_left]]
  rw [show List.drop 8 (A ++ (B ++ [255, 255])) = B ++ [255, 255] by
    rw [← hA8, List.drop_left]]
  rw [show List.take 4 (B ++ [255, 255]) = B by
    rw [← hB4, List.take_left]]
  rw [hA, hB]
  rw [beVal_beBytes 8 _ (by norm_num; omega), beVal_beBytes 4 _ (by norm_num; omega)]
  rw [if_pos (by omega)]
  omega

theorem readTime_writeTime (t : Int) (h0 : 0 ≤ t)
    (h1 : t < 9223372036854775808000000000) (r : List Nat) :
    readTime (writeTime t ++ r) = some (t, r) := by
  simp only [readTime, writeTime]
  rw [readByteArray_writeByteArray _ (by rw [gobTimeEnc_length]; omega) r]
  simp only [gobTimeDec_gobTimeEnc t h0 h1]

theorem readDate_writeDate (k : Nat) (hk : k < 65536) (r : List Nat) :
    readDate (writeDate (ioDateBase + (k : Int) * dayNanos) ++ r) =
      some (ioDateBase + (k : Int) * dayNanos, r) := by
  have hi : (ioDateBase + (k : Int) * dayNanos - ioDateBase) / dayNanos = (k : Int) := by
    rw [add_sub_cancel_left]
    show (k : Int) * 86400000000000 / 86400000000000 = (k : Int)
    omega
  simp only [writeDate, hi, writeByte, readDate, readByte, List.cons_append,
    List.nil_append]
  have harg : ((((k : Int) / 256 % 256).toNat % 256 : Nat) : Int) * 256 +
      ((((k : Int) % 256).toNat % 256 : Nat) : Int) = (k : Int) := by omega
  rw [harg]

/-! ## Pair round trip -/

theorem pairWF_expires_day (p : pair) (hp : pairWF p) :
    ∃ k : Nat, k < 65536 ∧ p.expires = ioDateBase + (k : Int) * dayNanos := by
  obtain ⟨-, -, -, -, -, h6, h7, h8⟩ := hp
  simp only [ioDateBase, dayNanos] at h6 h7 h8 ⊢
  exact ⟨((p.expires - 1577836800000000000) / 86400000000000).toNat, by omega, by omega⟩

theorem setFromBuffer_writeToBuffer (p : pair) (hp : pairWF p) (r : List Nat) :
    pair.setFromBuffer (pair.writeToBuffer p ++ r) =
      some ({ p with cookieWriteTime := 0 }, r) := by
  obtain ⟨k, hk, hex⟩ := pairWF_expires_day p hp
  obtain ⟨h1, h2, h3, h4, h5, -⟩ := hp
  simp only [pair.writeToBuffer, List.append_assoc, pair.setFromBuffer,
    readString_writeString p.key h1, readByte_writeByte p.conflict h3,
    readTime_writeTime p.created h4 h5, hex, readDate_writeDate k hk,
    readString_writeString p.value h2]

/-! ## Secret ordering lemmas -/

theorem mem_insertByTimeStamp (b s : secret) (l : List secret) :
    b ∈ insertByTimeStamp s l ↔ b = s ∨ b ∈ l := by
  induction l with
  | nil => simp [insertByTimeStamp]
  | cons t ts ih =>
    by_cases hc : s.timeStamp ≤ t.timeStamp
    · simp [insertByTimeStamp, hc, ih]
    · simp [insertByTimeStamp, hc, ih]
      tauto

theorem pairwise_insertByTimeStamp (s : secret) (l : List secret)
    (h : l.Pairwise fun a b => a.timeStamp ≤ b.timeStamp) :
    (insertByTimeStamp s l).Pairwise fun a b => a.timeStamp ≤ b.timeStamp := by
  induction l with
  | nil => simp [insertByTimeStamp]
  | cons t ts ih =>
    rw [List.pairwise_cons] at h
    obtain ⟨ht, hts⟩ := h
    by_cases hc : s.timeStamp ≤ t.timeStamp
    · rw [insertByTimeStamp, if_pos hc]
      refine List.Pairwise.cons ?_ (List.Pairwise.cons ht hts)
      intro b hb
      rcases List.mem_cons.mp hb with rfl | hb
      · exact hc
      · exact le_trans hc (ht b hb)
    · rw [insertByTimeStamp, if_neg hc]
      refine List.Pairwise.cons ?_ (ih hts)
      intro b hb
      rcases (mem_insertByTimeStamp b s ts).mp hb with rfl | hb
      · omega
      · exact ht b hb

theorem sortSecrets_sorted (l : List secret) :
    (sortSecrets l).Pairwise fun a b => a.timeStamp ≤ b.timeStamp := by
  unfold sortSecrets
  induction l with
  | nil => simp
  | cons s ss ih => exact pairwise_insertByTimeStamp s _ ih

/-! ## Merge lemma: the loop of mergeValues computes distinctAppend -/

theorem mergeValuesList_eq_distinctAppend (cs v : List (List Nat)) :
    mergeValuesList v cs = distinctAppend v cs := by
  induction cs generalizing v with
  | nil => rfl
  | cons a as ih =>
    unfold mergeValuesList distinctAppend
    simp only [List.foldl_cons]
    by_cases h : a ∈ v
    · simp only [if_pos h]
      exact ih v
    · simp only [if_neg h]
      exact ih (v ++ [a])

/-! ## State join and split lemmas -/

theorem splitCR_noCR (x : List Nat) (hx : 13 ∉ x) : splitCR x = [x] := by
  induction x with
  | nil => rfl
  | cons c cs ih =>
    have hc : ¬ c = 13 := fun h => hx (h ▸ List.mem_cons_self c cs)
    have hcs : 13 ∉ cs := fun h => hx (List.mem_cons_of_mem c h)
    rw [splitCR, if_neg hc, ih hcs]

theorem splitCR_sep (x s : List Nat) (hx : 13 ∉ x) :
    splitCR (x ++ 13 :: s) = x :: splitCR s := by
  induction x with
  | nil => simp [splitCR]
  | cons c cs ih =>
    have hc : ¬ c = 13 := fun h => hx (h ▸ List.mem_cons_self c cs)
    have hcs : 13 ∉ cs := fun h => hx (List.mem_cons_of_mem c h)
    rw [List.cons_append, splitCR, if_neg hc, ih hcs]

theorem splitCR_joinCR (xs : List (List Nat)) (h1 : xs ≠ [])
    (h2 : ∀ x ∈ xs, 13 ∉ x) : splitCR (joinCR xs) = xs := by
  induction xs with
  | nil => exact absurd rfl h1
  | cons x ys ih =>
    cases ys with
    | nil => exact splitCR_noCR x (h2 x (List.mem_cons_self x []))
    | cons y rest =>
      rw [joinCR, splitCR_sep x _ (h2 x (List.mem_cons_self _ _)),
        ih (by simp) (fun z hz => h2 z (List.mem_cons_of_mem x hz))]

theorem joinCR_zero_free (xs : List (List Nat)) (h : ∀ x ∈ xs, 0 ∉ x) :
    0 ∉ joinCR xs := by
  induction xs with
  | nil => simp [joinCR]
  | cons x ys ih =>
    cases ys with
    | nil => exact h x (List.mem_cons_self x [])
    | cons y rest =>
      rw [joinCR]
      intro hmem
      rcases List.mem_append.mp hmem with hx | hx
      · exact h x (List.mem_cons_self _ _) hx
      · rcases List.mem_cons.mp hx with h13 | hx
        · omega
        · exact ih (fun z hz => h z (List.mem_cons_of_mem x hz)) hx

/-! ## Operation round trip machinery -/

theorem HTML_set_write (h : HTML) (w1 : 0 ∉ h.title) (w2 : 0 ∉ h.message)
    (w3 : 0 ∉ h.backgroundColor) (w4 : 0 ∉ h.messageColor)
    (w5 : 0 ∉ h.progressColor) (w6 : h.flags < 256) (r : List Nat) :
    HTML.set (HTML.write h ++ r) = some (h, r) := by
  simp only [HTML.write, HTML.set, List.append_assoc,
    readString_writeString _ w1, readString_writeString _ w2,
    readString_writeString _ w3, readString_writeString _ w4,
    readString_writeString _ w5, readByte_writeByte _ w6]

theorem readPairs_writePairs (ps : List pair) (h : ∀ p ∈ ps, pairWF p)
    (r : List Nat) :
    readPairs ps.length (writePairs ps ++ r) =
      some (ps.map (fun p => { p with cookieWriteTime := 0 }), r) := by
  induction ps with
  | nil => simp [writePairs, readPairs]
  | cons p ps ih =>
    have hp := h p (List.mem_cons_self p ps)
    have hps : ∀ q ∈ ps, pairWF q := fun q hq => h q (List.mem_cons_of_mem p hq)
    simp only [writePairs, List.map_cons, List.flatten_cons, List.length_cons,
      List.append_assoc, readPairs, setFromBuffer_writeToBuffer p hp]
    have ih2 := ih hps
    simp only [writePairs] at ih2
    rw [ih2]

theorem setFromByteArray_asByteArray (o : operation) (h : opWF o)
    (extra : List Nat) :
    operation.setFromByteArray (operation.asByteArray o ++ extra) =
      if extra = [] then
        some { timeStamp := o.timeStamp, returnURL := o.returnURL,
               accessNode := o.accessNode, html := o.html,
               nodesVisited := o.nodesVisited, nodeCount := o.nodeCount,
               prevNode := o.prevNode, homeNode := o.homeNode,
               state := o.state,
               pairs := o.resolved.map (fun p => { p with cookieWriteTime := 0 }),
               resolved := [] }
      else none := by
  obtain ⟨h1, h2, h3, h4, h5, h6, h7, h8, h9, hfl, h10, h11, h12, h13, h14, h15,
    h16, h17⟩ := h
  have hjoin : 0 ∉ joinCR o.state :=
    joinCR_zero_free o.state (fun x hx => (h15 x hx).2)
  have hsplit : splitCR (joinCR o.state) = o.state :=
    splitCR_joinCR o.state h14 (fun x hx => (h15 x hx).1)
  simp only [operation.asByteArray, operation.setFromByteArray, List.append_assoc,
    readTime_writeTime o.timeStamp h1 h2,
    readString_writeString o.returnURL h3,
    readString_writeString o.accessNode h4,
    HTML_set_write o.html h5 h6 h7 h8 h9 hfl,
    readByte_writeByte o.nodesVisited h10,
    readByte_writeByte o.nodeCount h11,
    readString_writeString o.prevNode h12,
    readString_writeString o.homeNode h13,
    readString_writeString (joinCR o.state) hjoin,
    readByte_writeByte o.resolved.length h16,
    readPairs_writePairs o.resolved h17,
    hsplit]

/-! ## Base64 round trip -/

theorem b64CharDec_b64Char_all : ∀ k < 64, b64CharDec (b64Char k) = some k := by
  decide

theorem b64decode_b64encode (bs : List Nat) (h : ∀ b ∈ bs, b < 256) :
    b64decode (b64encode bs) = some bs := by
  induction bs using b64encode.induct with
  | case1 b1 b2 b3 rest ih =>
    have hb1 : b1 < 256 := h b1 (by simp)
    have hb2 : b2 < 256 := h b2 (by simp)
    have hb3 : b3 < 256 := h b3 (by simp)
    have hrest : ∀ b ∈ rest, b < 256 := fun b hb => h b (by simp [hb])
    simp only [b64encode, b64decode,
      b64CharDec_b64Char_all _ (by omega : b1 / 4 < 64),
      b64CharDec_b64Char_all _ (by omega : b1 % 4 * 16 + b2 / 16 < 64),
      b64CharDec_b64Char_all _ (by omega : b2 % 16 * 4 + b3 / 64 < 64),
      b64CharDec_b64Char_all _ (by omega : b3 % 64 < 64),
      ih hrest]
    simp only [Option.some.injEq, List.cons.injEq]
    refine ⟨by omega, by omega, by omega, trivial⟩
  | case2 b1 b2 =>
    have hb1 : b1 < 256 := h b1 (by simp)
    have hb2 : b2 < 256 := h b2 (by simp)
    simp only [b64encode, b64decode,
      b64CharDec_b64Char_all _ (by omega : b1 / 4 < 64),
      b64CharDec_b64Char_all _ (by omega : b1 % 4 * 16 + b2 / 16 < 64),
      b64CharDec_b64Char_all _ (by omega : b2 % 16 * 4 < 64)]
    simp only [Option.some.injEq, List.cons.injEq]
    refine ⟨by omega, by omega, trivial⟩
  | case3 b1 =>
    have hb1 : b1 < 256 := h b1 (by simp)
    simp only [b64encode, b64decode,
      b64CharDec_b64Char_all _ (by omega : b1 / 4 < 64),
      b64CharDec_b64Char_all _ (by omega : b1 % 4 * 16 < 64)]
    simp only [Option.some.injEq, List.cons.injEq]
    refine ⟨by omega, trivial⟩
  | case4 => rfl

/-! ## Binary search bounds -/

theorem searchHash_range (hs : List ringNode) (h : Nat) (l u m : Int)
    (hl : 0 ≤ l) (hu : u < (hs.length : Int)) (hm0 : 0 ≤ m)
    (hm1 : m < (hs.length : Int)) :
    0 ≤ searchHash hs h l u m ∧ searchHash hs h l u m < (hs.length : Int) := by
  induction l, u, m using searchHash.induct hs h with
  | case1 l u m hle hv ih =>
    rw [searchHash]
    simp only [dif_pos hle]
    rw [if_pos hv]
    exact ih (by omega) hu (by omega) (by omega)
  | case2 l u m hle hv1 hv2 ih =>
    rw [searchHash]
    simp only [dif_pos hle]
    rw [if_neg hv1, if_pos hv2]
    exact ih hl (by omega) (by omega) (by omega)
  | case3 l u m hle hv1 hv2 =>
    rw [searchHash]
    simp only [dif_pos hle]
    rw [if_neg hv1, if_neg hv2]
    omega
  | case4 l u m hle =>
    rw [searchHash]
    simp only [dif_neg hle]
    omega

/-! ## Nonce lemmas -/

theorem makeNonce_length (g : AEAD) (d : List Nat) :
    (makeNonce g d).length = g.nonceSize := by
  simp [makeNonce]

theorem makeNonce_bytes (g : AEAD) (d : List Nat) (hd : d ≠ [])
    (hb : ∀ b ∈ d, b < 256) : ∀ b ∈ makeNonce g d, b < 256 := by
  intro b hbm
  simp only [makeNonce, List.mem_map, List.mem_range] at hbm
  obtain ⟨i, hi, rfl⟩ := hbm
  have hlen : 0 < d.length := List.length_pos.mpr hd
  have hmod : i % d.length < d.length := Nat.mod_lt _ hlen
  rw [List.getD_eq_getElem d 0 hmod]
  exact hb _ (List.getElem_mem hmod)

theorem makeNonce_cyclic (g : AEAD) (d : List Nat) (i : Nat)
    (hi : i < g.nonceSize) :
    (makeNonce g d).getD i 0 = d.getD (i % d.length) 0 := by
  have hlen : i < (makeNonce g d).length := by rw [makeNonce_length]; exact hi
  rw [List.getD_eq_getElem _ 0 hlen]
  simp [makeNonce, hi]

/-! ## Empty-ring search -/

theorem getNodeIndexByHash_nil (h : Nat) : getNodeIndexByHash [] h = 0 := by
  unfold getNodeIndexByHash
  rw [searchHash]
  norm_num

/-! ## Claim theorems -/

/-- Claim C1 (code bug evaluation).  The specification and the source
comments at the `sortSecrets` call sites say the most recent secret comes
first and encryption uses it, but the comparator of `sortSecrets` orders
the secrets by ASCENDING time stamp: on a node holding a newer and an
older secret, the sorted list starts with the OLDER one, `getSecret`
returns it, and in general every sorted secrets list is ascending in
time stamp, so the head used by `encrypt` is an oldest secret, not the
newest. -/
theorem claim_C1 :
    sortSecrets [secretNew, secretOld] = [secretOld, secretNew] ∧
    getSecret (sortSecrets [secretNew, secretOld]) = some secretOld ∧
    secretOld.timeStamp < secretNew.timeStamp ∧
    ∀ l : List secret,
      (sortSecrets l).Pairwise fun a b => a.timeStamp ≤ b.timeStamp :=
  ⟨by decide, by decide, by decide, sortSecrets_sorted⟩

/-- Claim C3 (confirmed).  For every well-formed pair (zero-free key and
value strings, byte conflict flag, representable creation instant,
day-granular in-range expiry, as the data model prescribes), reading back
the buffer written by `writeToBuffer` restores the key, the conflict
flag, the created and expires instants and the value string - hence also
the CR-LF value list in its order.  The transient `cookieWriteTime` is
not part of the pair payload and comes back as the zero instant of a
fresh pair. -/
theorem claim_C3 (p : pair) (hp : pairWF p) (r : List Nat) :
    pair.setFromBuffer (pair.writeToBuffer p ++ r) =
      some ({ p with cookieWriteTime := 0 }, r) ∧
    ∀ q rest, pair.setFromBuffer (pair.writeToBuffer p ++ r) = some (q, rest) →
      q.key = p.key ∧ q.conflict = p.conflict ∧ q.created = p.created ∧
      q.expires = p.expires ∧ splitCRLF q.value = splitCRLF p.value := by
  have h := setFromBuffer_writeToBuffer p hp r
  refine ⟨h, fun q rest hq => ?_⟩
  rw [h] at hq
  obtain ⟨rfl, -⟩ := Prod.mk.injEq .. ▸ Option.some.injEq .. ▸ hq
  exact ⟨rfl, rfl, rfl, rfl, rfl⟩

/-- Witness for claim C3 at a concrete pair. -/
theorem claim_C3_witness :
    pairWF c3p ∧
    pair.setFromBuffer (pair.writeToBuffer c3p ++ [7]) =
      some ({ c3p with cookieWriteTime := 0 }, [7]) :=
  ⟨by decide, (claim_C3 c3p (by decide) [7]).1⟩

/-- Counterexample for claim C4.  The date primitive writes the HIGH byte
of the day count first: day count 1 serialises as the bytes 0, 1, while
the little-endian `uint16` primitive writes 1 as the bytes 1, 0 - so the
date is NOT encoded low byte first like every other integer primitive. -/
theorem claim_C4_counterexample :
    writeDate (ioDateBase + 1 * dayNanos) = [0, 1] ∧
    writeUint16 1 = [1, 0] ∧
    writeDate (ioDateBase + 1 * dayNanos) ≠ writeUint16 1 := by
  refine ⟨by decide, by decide, by decide⟩

/-- Claim C4 as amended.  The date codec serialises the 16-bit day count
since 2020-01-01 UTC in BIG-endian byte order (high byte first), unlike
the other integer primitives of the codec, which are little-endian; and
`readDate` inverts `writeDate` on every day count below 65536. -/
theorem claim_C4 (k : Nat) (hk : k < 65536) (r : List Nat) :
    writeDate (ioDateBase + (k : Int) * dayNanos) = [k / 256, k % 256] ∧
    readDate (writeDate (ioDateBase + (k : Int) * dayNanos) ++ r) =
      some (ioDateBase + (k : Int) * dayNanos, r) := by
  constructor
  · have hi : (ioDateBase + (k : Int) * dayNanos - ioDateBase) / dayNanos =
        (k : Int) := by
      rw [add_sub_cancel_left]
      show (k : Int) * 86400000000000 / 86400000000000 = (k : Int)
      omega
    simp only [writeDate, hi, writeByte]
    have e1 : (((k : Int) / 256 % 256).toNat) % 256 = k / 256 := by omega
    have e2 : (((k : Int) % 256).toNat) % 256 = k % 256 := by omega
    rw [e1, e2]
    rfl
  · exact readDate_writeDate k hk r

/-- Witness for claim C4 at day count one. -/
theorem claim_C4_witness :
    (1 : Nat) < 65536 ∧
    (writeDate (ioDateBase + (1 : Nat) * dayNanos) = [1 / 256, 1 % 256] ∧
      readDate (writeDate (ioDateBase + (1 : Nat) * dayNanos) ++ [9]) =
        some (ioDateBase + (1 : Nat) * dayNanos, [9])) :=
  ⟨by decide, claim_C4 1 (by decide) [9]⟩

/-- Counterexample for claim C5.  With equal creation instants and a
later cookie write time on the operation side, `resolveConflictNewest`
returns the operation pair although its `created` is NOT strictly
greater - the claimed equivalence fails on ties. -/
theorem claim_C5_counterexample :
    resolveConflictNewest c5a c5b = c5a ∧ ¬ c5b.created < c5a.created := by
  refine ⟨by decide, by decide⟩

/-- Claim C5 as amended.  For distinct pairs, the newest policy returns
the first argument exactly when its creation instant is strictly later,
OR the creation instants tie and its cookie write time is strictly
later; otherwise the second argument is returned. -/
theorem claim_C5 (a b : pair) (hab : a ≠ b) :
    resolveConflictNewest a b = a ↔
      (b.created < a.created ∨
        (a.created = b.created ∧ b.cookieWriteTime < a.cookieWriteTime)) := by
  unfold resolveConflictNewest
  split_ifs with h1 h2 h3
  · exact iff_of_true rfl (Or.inl h1)
  · exact iff_of_false (fun h => hab h.symm) (by omega)
  · exact iff_of_true rfl (by omega)
  · exact iff_of_false (fun h => hab h.symm) (by omega)

/-- Witness for claim C5 at concrete distinct pairs. -/
theorem claim_C5_witness :
    c5c ≠ c5d ∧
    (resolveConflictNewest c5c c5d = c5c ↔
      (c5d.created < c5c.created ∨
        (c5c.created = c5d.created ∧
          c5d.cookieWriteTime < c5c.cookieWriteTime))) :=
  ⟨by decide, claim_C5 c5c c5d (by decide)⟩

/-- Counterexample for claim C2.  On an operation whose state list is
empty and whose pair list is non-empty (while `resolved` is empty, the
list that `asByteArray` actually serialises), deserialising the
serialisation does NOT return an equal operation: the state comes back as
a single empty string and the pair list comes back empty. -/
theorem claim_C2_counterexample :
    operation.setFromByteArray (operation.asByteArray c2op) ≠ some c2op ∧
    (operation.setFromByteArray (operation.asByteArray c2op)).map
      operation.state = some [[]] ∧
    (operation.setFromByteArray (operation.asByteArray c2op)).map
      operation.pairs = some [] ∧
    c2op.state = [] ∧ c2op.pairs ≠ [] := by
  refine ⟨by decide, by decide, by decide, by decide, by decide⟩

/-- Claim C2 as amended.  For a well-formed operation (representable time
stamp, zero-free strings, byte-sized counters, non-empty CR-free state,
fewer than 256 well-formed resolved pairs), deserialising the
serialisation restores the time stamp, return URL, access node, HTML
block, both hop counters, the previous and home node domains and the
state list; the pair list is read back into `pairs` from the serialised
`resolved` list, with each transient `cookieWriteTime` reset to zero.  A
byte array with extra trailing bytes after the final pair is rejected. -/
theorem claim_C2 (o : operation) (h : opWF o) (extra : List Nat) :
    operation.setFromByteArray (operation.asByteArray o ++ extra) =
      if extra = [] then
        some { timeStamp := o.timeStamp, returnURL := o.returnURL,
               accessNode := o.accessNode, html := o.html,
               nodesVisited := o.nodesVisited, nodeCount := o.nodeCount,
               prevNode := o.prevNode, homeNode := o.homeNode,
               state := o.state,
               pairs := o.resolved.map (fun p => { p with cookieWriteTime := 0 }),
               resolved := [] }
      else none :=
  setFromByteArray_asByteArray o h extra

/-- Witness for claim C2 at a concrete well-formed operation, both
without and with trailing bytes. -/
theorem claim_C2_witness :
    opWF c2wfOp ∧
    operation.setFromByteArray (operation.asByteArray c2wfOp ++ []) =
      some { timeStamp := c2wfOp.timeStamp, returnURL := c2wfOp.returnURL,
             accessNode := c2wfOp.accessNode, html := c2wfOp.html,
             nodesVisited := c2wfOp.nodesVisited, nodeCount := c2wfOp.nodeCount,
             prevNode := c2wfOp.prevNode, homeNode := c2wfOp.homeNode,
             state := c2wfOp.state,
             pairs := c2wfOp.resolved.map
               (fun p => { p with cookieWriteTime := 0 }),
             resolved := [] } ∧
    operation.setFromByteArray (operation.asByteArray c2wfOp ++ [9]) = none := by
  refine ⟨by decide, ?_, ?_⟩
  · rw [claim_C2 c2wfOp (by decide) []]
    rfl
  · rw [claim_C2 c2wfOp (by decide) [9]]
    rfl

/-- Counterexample for claim C6.  With an operation value list containing
only the string "a" and a cookie pair whose value string is empty (the
lists differ), the merged value list of the source is just "a": the
final `TrimSpace` of the joined string drops the empty element, so the
result is NOT the distinct union of the two value lists (which keeps the
empty element). -/
theorem claim_C6_counterexample :
    splitCRLF (mergePairs 5 c6o c6c).value = [[97]] ∧
    distinctUnionSpec (splitCRLF c6o.value) (splitCRLF c6c.value) =
      [[97], []] ∧
    splitCRLF (mergePairs 5 c6o c6c).value ≠
      distinctUnionSpec (splitCRLF c6o.value) (splitCRLF c6c.value) := by
  refine ⟨by decide, by decide, by decide⟩

/-- Claim C6 as amended.  When the value strings differ, the add policy
returns a fresh pair with conflict add, `created` set to the current
instant, `expires` the later of the two expiry instants, the operation
key, a zero cookie write time, and a value equal to the CR-LF join of
the operation value list followed by those cookie elements not already
present, with surrounding white space trimmed from the joined string
(duplicates inside the operation list are preserved).  When the value
strings are equal, the cookie pair itself is returned. -/
theorem claim_C6 (now : Int) (o c : pair) :
    (o.value ≠ c.value →
      mergePairs now o c =
        { key := o.key, created := now, expires := max o.expires c.expires,
          value := trimSpace (joinCRLF
            (distinctAppend (splitCRLF o.value) (splitCRLF c.value))),
          conflict := conflictAdd, cookieWriteTime := 0 }) ∧
    (o.value = c.value → mergePairs now o c = c) := by
  constructor
  · intro hne
    unfold mergePairs
    rw [if_pos hne]
    have hexp : (if c.expires < o.expires then o.expires else c.expires) =
        max o.expires c.expires := by
      split_ifs <;> omega
    have hval : mergeValues o c = trimSpace (joinCRLF
        (distinctAppend (splitCRLF o.value) (splitCRLF c.value))) := by
      unfold mergeValues
      rw [mergeValuesList_eq_distinctAppend]
    rw [hexp, hval]
  · intro heq
    unfold mergePairs
    rw [if_neg (fun hne => hne heq)]

/-- Witness for claim C6 at concrete pairs with differing values. -/
theorem claim_C6_witness :
    c6o.value ≠ c6c.value ∧
    mergePairs 5 c6o c6c =
      { key := [107], created := 5, expires := 1577923200000000000,
        value := [97], conflict := conflictAdd, cookieWriteTime := 0 } :=
  ⟨by decide, ((claim_C6 5 c6o c6c).1 (by decide)).trans (by decide)⟩

/-- Claim C7 (confirmed; the AES-GCM AEAD from the Go standard library is
modelled abstractly by its interface laws from section 4.2 of the
specification).  For a node with a scrambler and a non-empty byte
domain, unscrambling the scramble of any byte string returns that
string; the nonce used is fixed per node, with the length of the cipher
nonce size, and is derived by cycling the domain bytes - so the
scrambled output of a fixed node and input is always the same. -/
theorem claim_C7 (g : AEAD) (d s : List Nat) (hd : d ≠ [])
    (hdb : ∀ b ∈ d, b < 256) (hsb : ∀ b ∈ s, b < 256) :
    unscramble (newScrNode g d) (scramble (newScrNode g d) s) = .ok s ∧
    (newScrNode g d).nonce.length = g.nonceSize ∧
    ∀ i < g.nonceSize,
      (newScrNode g d).nonce.getD i 0 = d.getD (i % d.length) 0 := by
  refine ⟨?_, makeNonce_length g d, fun i hi => makeNonce_cyclic g d i hi⟩
  have hnb := makeNonce_bytes g d hd hdb
  have hcb : ∀ b ∈ makeNonce g d ++ g.sealRaw (makeNonce g d) s, b < 256 := by
    intro b hb
    rcases List.mem_append.mp hb with hb | hb
    · exact hnb b hb
    · exact g.seal_bytes _ s hsb b hb
  have hb64 : b64decode (b64encode (makeNonce g d ++ g.sealRaw (makeNonce g d) s)) =
      some (makeNonce g d ++ g.sealRaw (makeNonce g d) s) :=
    b64decode_b64encode _ hcb
  have hlen2 : ¬ (makeNonce g d ++ g.sealRaw (makeNonce g d) s).length <
      g.nonceSize := by
    simp only [List.length_append, makeNonce_length]
    omega
  have htake : List.take g.nonceSize (makeNonce g d ++ g.sealRaw (makeNonce g d) s) =
      makeNonce g d := by
    rw [← makeNonce_length g d, List.take_left]
  have hdrop : List.drop g.nonceSize (makeNonce g d ++ g.sealRaw (makeNonce g d) s) =
      g.sealRaw (makeNonce g d) s := by
    rw [← makeNonce_length g d, List.drop_left]
  simp only [unscramble, scramble, newScrNode, encryptWithNonce, hb64, decrypt,
    if_neg hlen2, htake, hdrop, g.open_seal]

/-- Witness for claim C7 at the trivial AEAD instance, the one-byte
domain "a" and the input "hi". -/
theorem claim_C7_witness :
    ([97] : List Nat) ≠ [] ∧ (∀ b ∈ ([97] : List Nat), b < 256) ∧
    (∀ b ∈ ([104, 105] : List Nat), b < 256) ∧
    (unscramble (newScrNode trivAEAD [97])
        (scramble (newScrNode trivAEAD [97]) [104, 105]) = .ok [104, 105] ∧
      (newScrNode trivAEAD [97]).nonce.length = trivAEAD.nonceSize ∧
      ∀ i < trivAEAD.nonceSize,
        (newScrNode trivAEAD [97]).nonce.getD i 0 =
          ([97] : List Nat).getD (i % ([97] : List Nat).length) 0) :=
  ⟨by decide, by decide, by decide,
    claim_C7 trivAEAD [97] [104, 105] (by decide) (by decide) (by decide)⟩

/-- Counterexample for claim C8.  With an empty forwarded-for header and
an empty remote address, no IP token is extracted, the hash falls back to
zero - and on a non-empty ring `getHomeNode` still RETURNS A NODE rather
than failing: the failure only occurs on an empty ring. -/
theorem claim_C8_counterexample :
    getRemoteAddr [] [] = [] ∧
    getHomeNode (fun _ => 0) ring8 [] [] = .ok { hash := 5, domain := [110] } := by
  have h1 : searchHash [{ hash := 5, domain := [110] }] 0 0 (-1) 0 = 0 := by
    rw [searchHash]
    norm_num
  have h2 : searchHash [{ hash := 5, domain := [110] }] 0 0 0 0 = 0 := by
    rw [searchHash]
    norm_num [List.getD, h1]
  refine ⟨rfl, ?_⟩
  unfold getHomeNode getNodeIndexByHash getRemoteAddrHash getRemoteAddr
  norm_num [ring8, h2, List.getD]

/-- Claim C8 as amended.  Empty inputs extract no address and hash to
zero, but the home-node lookup fails exactly when the hash-ordered
storage ring is EMPTY: for every hash function and inputs, the lookup
returns an error if and only if the ring has no node; otherwise the
binary-search index is always in range and a node is returned. -/
theorem claim_C8 :
    getRemoteAddr [] [] = [] ∧
    ∀ (hashFn : List Nat → Nat) (hs : List ringNode) (xff ra : List Nat),
      (∃ e, getHomeNode hashFn hs xff ra = .error e) ↔ hs = [] := by
  refine ⟨rfl, fun hashFn hs xff ra => ?_⟩
  constructor
  · rintro ⟨e, he⟩
    by_contra hne
    have hpos : 0 < hs.length := List.length_pos.mpr hne
    have hrange := searchHash_range hs (getRemoteAddrHash hashFn xff ra) 0
      ((hs.length : Int) - 1) 0 (by omega) (by omega) (by omega) (by omega)
    unfold getHomeNode getNodeIndexByHash at he
    rw [if_neg (by omega)] at he
    exact Except.noConfusion he
  · rintro rfl
    refine ⟨"no home node identified", ?_⟩
    unfold getHomeNode getNodeIndexByHash
    rw [searchHash]
    norm_num

/-- Claim C9 (code bug evaluation).  The loop of `node.Decrypt` tries
each secret in turn and returns the first success, but the short
variable declaration inside the loop SHADOWS the outer `err`, so when no
secret succeeds (or the node has no secrets) the function returns a nil
byte slice together with a NIL error - it never reports the decryption
failure the claim describes. -/
theorem claim_C9 :
    nodeDecrypt [fun _ => none] [1, 2, 3] = (none, none) ∧
    (∀ fns d, (nodeDecrypt fns d).2 = none) ∧
    nodeDecrypt [fun d => some (d ++ [9]), fun _ => none] [7] =
      (some [7, 9], none) := by
  refine ⟨rfl, fun fns d => ?_, rfl⟩
  unfold nodeDecrypt
  cases decryptLoop fns d <;> rfl

/-- Claim C10 (confirmed).  `crypto.decrypt` rejects every input shorter
than the cipher nonce size (12 bytes for AES-GCM) with an error, before
the nonce and ciphertext are split, so no out-of-range slice can occur. -/
theorem claim_C10 (g : AEAD) (b : List Nat) (h : b.length < g.nonceSize) :
    decrypt g b = .error "data length shorter than nonce" := by
  unfold decrypt
  rw [if_pos h]

/-- Witness for claim C10 at a 3-byte input and 12-byte nonce size. -/
theorem claim_C10_witness :
    ([1, 2, 3] : List Nat).length < trivAEAD.nonceSize ∧
    decrypt trivAEAD [1, 2, 3] = .error "data length shorter than nonce" :=
  ⟨by decide, claim_C10 trivAEAD [1, 2, 3] (by decide)⟩

end Swift
